import Mathlib

/-!
# qernal terminal viewer: row aggregation, credential parsing, table key handling

A shallow embedding of `src/src/main.go`:

* the row aggregation loop of `main` (lines 139-164),
* the credential check and split at the start of `_getAccessToken` (lines 33-40),
  the package-level initialisation of `accessToken` (line 23) and the start of `main`,
* `model.Update` (lines 85-106) over a model of the table widget.

Run-time panics of Go (nil pointer dereference, index out of range) are an explicit
`Fault` in an `Except`.
-/

namespace Qernal

/-! ## Go run-time faults -/

/-- The two run-time panics that the embedded code can raise. -/
inductive Fault where
  | nilDereference
  | indexOutOfRange
  deriving DecidableEq, Repr

/-- Pointer dereference `*p`: a nil pointer panics. -/
def deref {α : Type} (p : Option α) : Except Fault α :=
  match p with
  | some v => Except.ok v
  | none => Except.error Fault.nilDereference

/-- Slice indexing `s[i]`: an index past the length panics. -/
def index {α : Type} (s : List α) (i : Nat) : Except Fault α :=
  match s.get? i with
  | some v => Except.ok v
  | none => Except.error Fault.indexOutOfRange

/-! ## Data returned by the function-list request -/

/-- Location of a deployment; `Country` is a pointer field (`*provider.Location.Country`). -/
structure Location where
  Country : Option String
  deriving DecidableEq, Repr

/-- One element of `function.Deployments`; `Id` is a pointer field (`*provider.Id`). -/
structure Deployment where
  Id : Option String
  Location : Location
  deriving DecidableEq, Repr

/-- The size descriptor; the fields hold what `GetCpu()` and `GetMemory()` return. -/
structure FunctionSize where
  Cpu : Int
  Memory : Int
  deriving DecidableEq, Repr

/-- One element of `functions.Data`. `Type_` holds `string(function.Type)`. -/
structure RawFunction where
  Name : String
  Type_ : String
  Size : FunctionSize
  Deployments : List Deployment
  deriving DecidableEq, Repr

/-- A `table.Row` is a `[]string`. -/
abbrev Row := List String

/-! ## Row aggregation (main, lines 139-164) -/

/-- The statement `if !slices.Contains(l, v) { l = append(l, v) }`. -/
def appendIfAbsent (l : List String) (v : String) : List String :=
  if !l.contains v then l ++ [v] else l

/-- Body of the inner loop over `function.Deployments` (lines 146-152); the state is
`(regionList, providerList)`. -/
def deploymentStep (st : List String × List String) (provider : Deployment) :
    Except Fault (List String × List String) :=
  match deref provider.Id with
  | Except.error e => Except.error e
  | Except.ok id =>
    let providerList := appendIfAbsent st.2 id
    match deref provider.Location.Country with
    | Except.error e => Except.error e
    | Except.ok country => Except.ok (appendIfAbsent st.1 country, providerList)

/-- The inner loop (lines 142-153), started from two empty lists. -/
def scanDeployments (deployments : List Deployment) : Except Fault (List String × List String) :=
  deployments.foldlM deploymentStep ([], [])

/-- The call `strings.Join(elems, sep)`. -/
def stringsJoin (elems : List String) (sep : String) : String :=
  sep.intercalate elems

/-- The call `fmt.Sprint(n)` on an integer: its decimal text. -/
def fmtSprint (n : Int) : String := toString n

/-- Body of the outer loop (lines 142-162): the row appended for one function. -/
def rowOf (function : RawFunction) : Except Fault Row :=
  match scanDeployments function.Deployments with
  | Except.error e => Except.error e
  | Except.ok (regionList, providerList) =>
    Except.ok [function.Name, function.Type_, stringsJoin providerList ", ",
      stringsJoin regionList ", ", fmtSprint function.Size.Cpu, fmtSprint function.Size.Memory]

/-- One iteration of the outer loop: `rows = append(rows, table.Row{...})`. -/
def appendRow (rows : List Row) (function : RawFunction) : Except Fault (List Row) :=
  match rowOf function with
  | Except.error e => Except.error e
  | Except.ok row => Except.ok (rows ++ [row])

/-- The row aggregation loop of `main` (lines 139-164) over `functions.Data`. -/
def buildRows (functions : List RawFunction) : Except Fault (List Row) :=
  functions.foldlM appendRow []

/-- Every deployment of the function carries a provider id and a country code, so that
neither dereference of the inner loop panics. -/
def WellFormed (function : RawFunction) : Prop :=
  ∀ d ∈ function.Deployments, d.Id.isSome = true ∧ d.Location.Country.isSome = true

instance (function : RawFunction) : Decidable (WellFormed function) :=
  inferInstanceAs (Decidable (∀ d ∈ function.Deployments, _))

/-- The provider ids of the deployments, in deployment order. -/
def providerIds (function : RawFunction) : List String :=
  function.Deployments.filterMap (fun d => d.Id)

/-- The country codes of the deployments, in deployment order. -/
def countryCodes (function : RawFunction) : List String :=
  function.Deployments.filterMap (fun d => d.Location.Country)

/-! ## Credentials (lines 19-54)

Go strings are byte strings; the separator is the one-byte string `"@"`, which in UTF-8 text
never occurs inside another character, so `strings.Contains`, `strings.Count` and
`strings.Split` with this separator are embedded over the characters of the token. -/

/-- The call `strings.Contains(s, sep)` for a one-character separator. -/
def stringsContains (s : String) (sep : Char) : Bool :=
  s.data.contains sep

/-- The call `strings.Count(s, sep)` for a one-character separator. -/
def stringsCount (s : String) (sep : Char) : Nat :=
  s.data.count sep

/-- The loop of `strings.Split`: cut at every separator, `piece` being the text read since
the last cut; the text after the last separator is the last piece. -/
def splitLoop (sep : Char) : List Char → List Char → List (List Char)
  | piece, [] => [piece]
  | piece, c :: rest =>
    if c = sep then piece :: splitLoop sep [] rest else splitLoop sep (piece ++ [c]) rest

/-- The call `strings.Split(s, sep)` for a one-character separator. -/
def stringsSplit (s : String) (sep : Char) : List String :=
  (splitLoop sep [] s.data).map String.mk

/-- The error value built by `errors.New("the qernal token is invalid")`. -/
def invalidTokenError : String := "the qernal token is invalid"

/-- Lines 34-40 of `_getAccessToken`: the format check and the split into
`(clientId, clientSecret)`. The inner `Except` is the returned `error`, the outer one a
panic of the two index expressions. -/
def parseCredential (token : String) : Except Fault (Except String (String × String)) :=
  if !stringsContains token '@' || stringsCount token '@' > 1 then
    Except.ok (Except.error invalidTokenError)
  else
    match index (stringsSplit token '@') 0 with
    | Except.error e => Except.error e
    | Except.ok clientId =>
      match index (stringsSplit token '@') 1 with
      | Except.error e => Except.error e
      | Except.ok clientSecret => Except.ok (Except.ok (clientId, clientSecret))

/-- The `clientcredentials.Config` literal of lines 42-46. -/
structure Config where
  ClientID : String
  ClientSecret : String
  TokenURL : String
  deriving DecidableEq, Repr

/-- The function `_getAccessToken` (lines 33-54). The token exchange `config.Token` is the
parameter `tokenRequest`; the result is the Go pair `(string, error)`. -/
def _getAccessToken (tokenRequest : Config → Except String String)
    (qernalHydraEndpoint token : String) : Except Fault (String × Option String) :=
  match parseCredential token with
  | Except.error e => Except.error e
  | Except.ok (Except.error err) => Except.ok ("", some err)
  | Except.ok (Except.ok (clientId, clientSecret)) =>
    let config : Config :=
      { ClientID := clientId, ClientSecret := clientSecret,
        TokenURL := qernalHydraEndpoint ++ "/oauth2/token" }
    match tokenRequest config with
    | Except.error err => Except.ok ("", some err)
    | Except.ok oauthToken => Except.ok (oauthToken, none)

/-- The function `getEnv` (lines 26-31); `value` is the result of `os.LookupEnv(key)`. -/
def getEnv (value : Option String) (fallback : String) : String :=
  match value with
  | some v => v
  | none => fallback

/-- The `openapi_chaos_client.Configuration` built by `qernalClient`. -/
structure Configuration where
  URL : String
  Authorization : String
  deriving DecidableEq, Repr

/-- The function `qernalClient` (lines 56-70) over the two package variables it reads. -/
def qernalClient (qernalChaosEndpoint accessToken : String) : Configuration :=
  { URL := qernalChaosEndpoint ++ "/v1", Authorization := "Bearer " ++ accessToken }

/-! ## The terminal UI messages and commands -/

namespace tea

/-- A `tea.Msg`: a key press, carried as the text `msg.String()` returns, or anything else. -/
inductive Msg where
  | KeyMsg (key : String)
  | other
  deriving DecidableEq, Repr

/-- A `tea.Cmd` as far as `model.Update` builds one: `tea.Quit`, the line printed by
`tea.Printf` (already formatted), and `tea.Batch` of commands. -/
inductive Cmd where
  | Quit
  | Printf (text : String)
  | Batch (cmds : List Cmd)

end tea

/-! ## The table widget -/

namespace table

/-- Modelled from the spec: the table widget `table.Model` of the imported
`charmbracelet/bubbles` library is not among the sources. The state is the one of the
spec's TableState: the rows, a cursor index, the focus flag and the viewport height. -/
structure Model where
  rows : List Row
  cursor : Int
  focus : Bool
  height : Int
  deriving DecidableEq, Repr

/-- Modelled from the spec: the constructor call `table.New(WithColumns, WithRows(rows),
WithFocused(focused), WithHeight(height))`, absent from the sources; the cursor starts on
the first row. -/
def New (rows : List Row) (focused : Bool) (height : Int) : Model :=
  { rows := rows, cursor := 0, focus := focused, height := height }

namespace Model

/-- Modelled from the spec: the absent accessor `Focused()` reads the focus flag. -/
def Focused (m : Model) : Bool := m.focus

/-- Modelled from the spec: the absent method `Focus()` sets the focus flag. -/
def Focus (m : Model) : Model := { m with focus := true }

/-- Modelled from the spec: the absent method `Blur()` clears the focus flag. -/
def Blur (m : Model) : Model := { m with focus := false }

/-- Modelled from the spec: the absent accessor `SelectedRow()` returns the highlighted
row. The spec leaves the cursor undefined on an empty row sequence; a method of result
type `table.Row` has no row to return when the cursor is not an index of a row, and the
result is then the nil row. -/
def SelectedRow (m : Model) : Row :=
  if m.cursor < 0 ∨ m.cursor ≥ m.rows.length then [] else m.rows.getD m.cursor.toNat []

/-- Modelled from the spec: a cursor move of the absent widget, clamped to
`[0, row-count)` and a no-op on an empty row sequence. -/
def moveTo (m : Model) (target : Int) : Model :=
  if m.rows.length = 0 then m
  else { m with cursor := min (max target 0) ((m.rows.length : Int) - 1) }

/-- Modelled from the spec: the absent method `table.Model.Update`. An unfocused table
ignores every message; a focused one moves the cursor on the navigation keys of the
widget's default key map and changes nothing on any other key or message. It never
returns a command. -/
def Update (m : Model) (msg : tea.Msg) : Model × Option tea.Cmd :=
  if !m.focus then (m, none)
  else
    match msg with
    | tea.Msg.KeyMsg key =>
      if key = "up" ∨ key = "k" then (m.moveTo (m.cursor - 1), none)
      else if key = "down" ∨ key = "j" then (m.moveTo (m.cursor + 1), none)
      else if key = "b" ∨ key = "pgup" then (m.moveTo (m.cursor - m.height), none)
      else if key = "f" ∨ key = "pgdown" ∨ key = " " then (m.moveTo (m.cursor + m.height), none)
      else if key = "u" ∨ key = "ctrl+u" then (m.moveTo (m.cursor - m.height / 2), none)
      else if key = "d" ∨ key = "ctrl+d" then (m.moveTo (m.cursor + m.height / 2), none)
      else if key = "home" ∨ key = "g" then (m.moveTo 0, none)
      else if key = "end" ∨ key = "G" then (m.moveTo (m.rows.length : Int), none)
      else (m, none)
    | tea.Msg.other => (m, none)

end Model

end table

/-! ## The program model (lines 79-106) -/

/-- The struct `model` (lines 79-81). -/
structure model where
  table : table.Model
  deriving DecidableEq, Repr

/-- Lines 104-105: `m.table, cmd = m.table.Update(msg); return m, cmd`. -/
def delegate (m : model) (msg : tea.Msg) : model × Option tea.Cmd :=
  let r := m.table.Update msg
  ({ m with table := r.1 }, r.2)

/-- The format call `fmt.Sprintf("Let's go to %s!", arg)` inside `tea.Printf`. -/
def selectionText (arg : String) : String :=
  "Let's go to " ++ arg ++ "!"

/-- The method `model.Update` (lines 85-106). The `enter` case indexes the selected row at
position 1, which panics on a row shorter than two fields. -/
def model.Update (m : model) (msg : tea.Msg) : Except Fault (model × Option tea.Cmd) :=
  match msg with
  | tea.Msg.KeyMsg key =>
    if key = "esc" then
      let m : model :=
        if m.table.Focused then { m with table := m.table.Blur }
        else { m with table := m.table.Focus }
      Except.ok (delegate m msg)
    else if key = "q" ∨ key = "ctrl+c" then
      Except.ok (m, some tea.Cmd.Quit)
    else if key = "enter" then
      match index m.table.SelectedRow 1 with
      | Except.error e => Except.error e
      | Except.ok field =>
        Except.ok (m, some (tea.Cmd.Batch [tea.Cmd.Printf (selectionText field)]))
    else Except.ok (delegate m msg)
  | tea.Msg.other => Except.ok (delegate m msg)

/-! ## Start-up (lines 19-24 and 120-186) -/

/-- The process environment read by the package variables. `os.Getenv` gives `""` for an
unset variable; the two hosts are looked up with `os.LookupEnv`. -/
structure Environ where
  QERNAL_TOKEN : String
  QERNAL_HOST_CHAOS : Option String
  QERNAL_HOST_HYDRA : Option String

/-- The two network collaborators: the token exchange, and the function-list request, whose
first result is the pointer `functions` (nil, or a response holding `Data`). -/
structure Network where
  tokenRequest : Config → Except String String
  functionsList : Configuration → String → Option (List RawFunction)

/-- What the program does that is visible from outside, in order. -/
inductive Event where
  | clientBuilt (configuration : Configuration)
  | functionsListRequested (configuration : Configuration) (projectId : String)
  | programStarted (m : model)
  deriving DecidableEq, Repr

/-- The package variable `accessToken` (line 23): `accessToken, _ = _getAccessToken(...)`,
the error result being assigned to the blank identifier. -/
def accessToken (os : Environ) (net : Network) : Except Fault String :=
  match _getAccessToken net.tokenRequest
      (getEnv os.QERNAL_HOST_HYDRA "https://hydra.qernal.com") os.QERNAL_TOKEN with
  | Except.error e => Except.error e
  | Except.ok (token, _) => Except.ok token

/-- Package initialisation followed by `main` (lines 120-186), up to the start of the
terminal program: the events so far and the model handed to `tea.NewProgram`, or the
panic that ended the run. The fetch error is assigned to the blank identifier; the
`fmt.Println(functions)` of line 128 and the styling of lines 173-183 are left out. -/
def main (os : Environ) (net : Network) : List Event × Except Fault model :=
  match accessToken os net with
  | Except.error e => ([], Except.error e)
  | Except.ok token =>
    let client := qernalClient (getEnv os.QERNAL_HOST_CHAOS "https://chaos.qernal.com") token
    let functions := net.functionsList client "\x7bproject-id\x7d"
    let events := [Event.clientBuilt client,
      Event.functionsListRequested client "\x7bproject-id\x7d"]
    match deref functions with
    | Except.error e => (events, Except.error e)
    | Except.ok data =>
      match buildRows data with
      | Except.error e => (events, Except.error e)
      | Except.ok rows =>
        let m : model := { table := table.New rows true 7 }
        (events ++ [Event.programStarted m], Except.ok m)

/-- The row of a well-formed function written without the loop state: the two scans are
folds of `appendIfAbsent` over the provider ids and over the country codes. -/
def aggregatedRow (function : RawFunction) : Row :=
  [function.Name, function.Type_,
    stringsJoin ((providerIds function).foldl appendIfAbsent []) ", ",
    stringsJoin ((countryCodes function).foldl appendIfAbsent []) ", ",
    fmtSprint function.Size.Cpu, fmtSprint function.Size.Memory]

/-! ## Concrete inputs -/

/-- The first function of the spec's scenario: deployments (aws, US) and (aws, DE). -/
def awsTwice : RawFunction :=
  { Name := "checkout-api", Type_ := "http", Size := { Cpu := 1, Memory := 128 },
    Deployments := [{ Id := some "aws", Location := { Country := some "US" } },
                    { Id := some "aws", Location := { Country := some "DE" } }] }

/-- The second function of the spec's scenario: no deployments. -/
def noDeployments : RawFunction :=
  { Name := "nightly", Type_ := "job", Size := { Cpu := 2, Memory := 256 }, Deployments := [] }

/-- The spec's end-to-end scenario: `awsTwice` followed by `noDeployments`. -/
def scenario : List RawFunction := [awsTwice, noDeployments]

/-- A one-row table on the row of `awsTwice`, cursor on that row, blurred. -/
def blurredCheckout : model :=
  { table := (table.New [["checkout-api", "http", "aws", "US, DE", "1", "128"]] true 7).Blur }

/-- The environment of the failing run: a token without '@', default hosts. -/
def malformedEnv : Environ :=
  { QERNAL_TOKEN := "abcdef", QERNAL_HOST_CHAOS := none, QERNAL_HOST_HYDRA := none }

/-! ## Lemmas on the aggregation loops -/

theorem appendIfAbsent_of_mem {l : List String} {v : String} (h : v ∈ l) :
    appendIfAbsent l v = l := by
  simp [appendIfAbsent, h]

theorem appendIfAbsent_of_not_mem {l : List String} {v : String} (h : v ∉ l) :
    appendIfAbsent l v = l ++ [v] := by
  simp [appendIfAbsent, h]

theorem foldl_appendIfAbsent_snoc (acc vs : List String) (v : String) :
    (vs ++ [v]).foldl appendIfAbsent acc = appendIfAbsent (vs.foldl appendIfAbsent acc) v := by
  simp [List.foldl_append]

theorem mem_appendIfAbsent (l : List String) (w v : String) :
    v ∈ appendIfAbsent l w ↔ v ∈ l ∨ v = w := by
  by_cases hw : w ∈ l
  · rw [appendIfAbsent_of_mem hw]
    constructor
    · exact Or.inl
    · rintro (h | h)
      · exact h
      · exact h ▸ hw
  · rw [appendIfAbsent_of_not_mem hw]
    simp

theorem nodup_appendIfAbsent {l : List String} (w : String) (h : l.Nodup) :
    (appendIfAbsent l w).Nodup := by
  by_cases hw : w ∈ l
  · rw [appendIfAbsent_of_mem hw]
    exact h
  · rw [appendIfAbsent_of_not_mem hw]
    exact List.Nodup.append h (List.nodup_singleton w) (by simpa using hw)

theorem mem_foldl_appendIfAbsent (vs acc : List String) (v : String) :
    v ∈ vs.foldl appendIfAbsent acc ↔ v ∈ acc ∨ v ∈ vs := by
  induction vs generalizing acc with
  | nil => simp
  | cons w vs ih =>
    rw [List.foldl_cons, ih, mem_appendIfAbsent, List.mem_cons]
    tauto

theorem nodup_foldl_appendIfAbsent (vs acc : List String) (h : acc.Nodup) :
    (vs.foldl appendIfAbsent acc).Nodup := by
  induction vs generalizing acc with
  | nil => exact h
  | cons w vs ih => exact ih _ (nodup_appendIfAbsent w h)

/-- Scanning from the empty list lists the values by the position of their first occurrence. -/
theorem pairwise_foldl_appendIfAbsent (vs : List String) :
    (vs.foldl appendIfAbsent []).Pairwise (fun a b => vs.indexOf a < vs.indexOf b) := by
  induction vs using List.reverseRecOn with
  | nil => simp
  | append_singleton vs w ih =>
    rw [foldl_appendIfAbsent_snoc]
    have hmem : ∀ a, a ∈ vs.foldl appendIfAbsent [] ↔ a ∈ vs := by
      intro a
      simp [mem_foldl_appendIfAbsent]
    have hold : (vs.foldl appendIfAbsent []).Pairwise
        (fun a b => (vs ++ [w]).indexOf a < (vs ++ [w]).indexOf b) := by
      refine (List.Pairwise.and_mem.1 ih).imp ?_
      rintro a b ⟨ha, hb, hlt⟩
      rw [List.indexOf_append_of_mem ((hmem a).1 ha), List.indexOf_append_of_mem ((hmem b).1 hb)]
      exact hlt
    by_cases hw : w ∈ vs
    · rw [appendIfAbsent_of_mem ((hmem w).2 hw)]
      exact hold
    · rw [appendIfAbsent_of_not_mem (fun h => hw ((hmem w).1 h))]
      refine List.pairwise_append.2 ⟨hold, List.pairwise_singleton _ _, ?_⟩
      intro a ha b hb
      rw [List.mem_singleton] at hb
      subst hb
      rw [List.indexOf_append_of_mem ((hmem a).1 ha), List.indexOf_append_of_not_mem hw]
      have := List.indexOf_lt_length.2 ((hmem a).1 ha)
      omega

/-- With every pointer present the inner loop does not panic and runs the two scans
side by side. -/
theorem foldlM_deploymentStep (ds : List Deployment) (st : List String × List String)
    (h : ∀ d ∈ ds, d.Id.isSome = true ∧ d.Location.Country.isSome = true) :
    ds.foldlM deploymentStep st = Except.ok
      ((ds.filterMap (fun d => d.Location.Country)).foldl appendIfAbsent st.1,
       (ds.filterMap (fun d => d.Id)).foldl appendIfAbsent st.2) := by
  induction ds generalizing st with
  | nil => rfl
  | cons d ds ih =>
    obtain ⟨hid, hc⟩ := h d (List.mem_cons_self d ds)
    obtain ⟨id, hid⟩ := Option.isSome_iff_exists.1 hid
    obtain ⟨c, hc⟩ := Option.isSome_iff_exists.1 hc
    have hstep : deploymentStep st d = Except.ok (appendIfAbsent st.1 c, appendIfAbsent st.2 id) := by
      simp [deploymentStep, deref, hid, hc]
    rw [List.foldlM_cons, hstep]
    show List.foldlM deploymentStep _ ds = _
    rw [ih _ (fun e he => h e (List.mem_cons_of_mem d he))]
    simp [hid, hc]

theorem scanDeployments_of_wellFormed (function : RawFunction) (h : WellFormed function) :
    scanDeployments function.Deployments = Except.ok
      ((countryCodes function).foldl appendIfAbsent [],
       (providerIds function).foldl appendIfAbsent []) :=
  foldlM_deploymentStep function.Deployments ([], []) h

theorem rowOf_of_wellFormed (function : RawFunction) (h : WellFormed function) :
    rowOf function = Except.ok (aggregatedRow function) := by
  simp [rowOf, aggregatedRow, scanDeployments_of_wellFormed function h]

/-- The outer loop appends one row per function, in order, when every function is
well-formed. -/
theorem foldlM_appendRow (functions : List RawFunction) (acc : List Row)
    (h : ∀ f ∈ functions, WellFormed f) :
    functions.foldlM appendRow acc = Except.ok (acc ++ functions.map aggregatedRow) := by
  induction functions generalizing acc with
  | nil => simp [pure, Except.pure]
  | cons f fs ih =>
    have hstep : appendRow acc f = Except.ok (acc ++ [aggregatedRow f]) := by
      simp [appendRow, rowOf_of_wellFormed f (h f (List.mem_cons_self f fs))]
    rw [List.foldlM_cons, hstep]
    show List.foldlM appendRow _ fs = _
    rw [ih _ (fun g hg => h g (List.mem_cons_of_mem f hg))]
    simp

theorem buildRows_of_wellFormed (functions : List RawFunction)
    (h : ∀ f ∈ functions, WellFormed f) :
    buildRows functions = Except.ok (functions.map aggregatedRow) := by
  simpa [buildRows] using foldlM_appendRow functions [] h

/-- A deployment without provider id or without country code makes the inner loop panic,
whatever the lists scanned so far. -/
theorem foldlM_deploymentStep_panics (ds : List Deployment) (st : List String × List String)
    (h : ∃ d ∈ ds, ¬ (d.Id.isSome = true ∧ d.Location.Country.isSome = true)) :
    ds.foldlM deploymentStep st = Except.error Fault.nilDereference := by
  induction ds generalizing st with
  | nil =>
    obtain ⟨d, hd, _⟩ := h
    cases hd
  | cons d ds ih =>
    rw [List.foldlM_cons]
    cases hid : d.Id with
    | none =>
      have hstep : deploymentStep st d = Except.error Fault.nilDereference := by
        simp [deploymentStep, deref, hid]
      rw [hstep]
      rfl
    | some id =>
      cases hc : d.Location.Country with
      | none =>
        have hstep : deploymentStep st d = Except.error Fault.nilDereference := by
          simp [deploymentStep, deref, hid, hc]
        rw [hstep]
        rfl
      | some c =>
        have hstep : deploymentStep st d =
            Except.ok (appendIfAbsent st.1 c, appendIfAbsent st.2 id) := by
          simp [deploymentStep, deref, hid, hc]
        rw [hstep]
        show List.foldlM deploymentStep _ ds = _
        apply ih
        obtain ⟨e, he, hne⟩ := h
        rcases List.mem_cons.1 he with rfl | he
        · exact absurd ⟨by simp [hid], by simp [hc]⟩ hne
        · exact ⟨e, he, hne⟩

/-- The row computation returns exactly on the well-formed functions. -/
theorem rowOf_ok_iff_wellFormed (function : RawFunction) :
    (∃ row, rowOf function = Except.ok row) ↔ WellFormed function := by
  constructor
  · rintro ⟨row, hrow⟩
    by_contra hwf
    have hex : ∃ d ∈ function.Deployments,
        ¬ (d.Id.isSome = true ∧ d.Location.Country.isSome = true) := by
      simpa [WellFormed] using hwf
    have hscan : scanDeployments function.Deployments = Except.error Fault.nilDereference :=
      foldlM_deploymentStep_panics _ _ hex
    simp [rowOf, hscan] at hrow
  · intro h
    exact ⟨_, rowOf_of_wellFormed function h⟩

theorem mem_providerIds (function : RawFunction) (v : String) :
    v ∈ providerIds function ↔ ∃ d ∈ function.Deployments, d.Id = some v := by
  simp [providerIds, List.mem_filterMap]

theorem mem_countryCodes (function : RawFunction) (v : String) :
    v ∈ countryCodes function ↔ ∃ d ∈ function.Deployments, d.Location.Country = some v := by
  simp [countryCodes, List.mem_filterMap]

theorem awsTwice_wellFormed : WellFormed awsTwice := by
  intro d hd
  simp only [awsTwice, List.mem_cons, List.mem_singleton, List.not_mem_nil, or_false] at hd
  rcases hd with rfl | rfl <;> simp

theorem noDeployments_wellFormed : WellFormed noDeployments := by
  intro d hd
  cases hd

theorem scenario_wellFormed : ∀ f ∈ scenario, WellFormed f := by
  intro f hf
  simp only [scenario, List.mem_cons, List.mem_singleton, List.not_mem_nil, or_false] at hf
  rcases hf with rfl | rfl
  · exact awsTwice_wellFormed
  · exact noDeployments_wellFormed

/-! ## Row aggregation: the claims -/

/-- C1: for every sequence of well-formed functions the row aggregation loop returns a row
sequence of the same length whose i-th row is the row computed from the i-th function,
with that function's name as first field: one row per function, in input order. -/
theorem buildRows_one_row_per_function (functions : List RawFunction)
    (h : ∀ f ∈ functions, WellFormed f) :
    ∃ rows, buildRows functions = Except.ok rows ∧ rows.length = functions.length ∧
      ∀ (i : Nat) (hi : i < functions.length), ∃ row,
        rows.get? i = some row ∧ rowOf (functions.get ⟨i, hi⟩) = Except.ok row ∧
        index row 0 = Except.ok (functions.get ⟨i, hi⟩).Name := by
  refine ⟨functions.map aggregatedRow, buildRows_of_wellFormed functions h, by simp, ?_⟩
  intro i hi
  refine ⟨aggregatedRow (functions.get ⟨i, hi⟩), ?_, ?_, rfl⟩
  · simp [List.getElem?_eq_getElem hi]
  · exact rowOf_of_wellFormed _ (h _ (List.get_mem functions i hi))

/-- Witness of C1 on the two-function scenario. -/
theorem buildRows_one_row_per_function_witness :
    (∀ f ∈ scenario, WellFormed f) ∧
    buildRows scenario = Except.ok
      [["checkout-api", "http", "aws", "US, DE", "1", "128"],
       ["nightly", "job", "", "", "2", "256"]] ∧
    ∃ rows, buildRows scenario = Except.ok rows ∧ rows.length = scenario.length ∧
      ∀ (i : Nat) (hi : i < scenario.length), ∃ row,
        rows.get? i = some row ∧ rowOf (scenario.get ⟨i, hi⟩) = Except.ok row ∧
        index row 0 = Except.ok (scenario.get ⟨i, hi⟩).Name :=
  ⟨scenario_wellFormed, rfl, buildRows_one_row_per_function scenario scenario_wellFormed⟩

/-- C2: for a well-formed function the inner loop ends with a provider list and a region
list that have no duplicates, hold exactly the provider ids (country codes) occurring in
the deployments, and list them by first occurrence; the row's fields 2 and 3 are these
lists joined with ", ". -/
theorem rowOf_providers_regions (function : RawFunction) (h : WellFormed function) :
    ∃ regionList providerList row,
      scanDeployments function.Deployments = Except.ok (regionList, providerList) ∧
      rowOf function = Except.ok row ∧
      index row 2 = Except.ok (stringsJoin providerList ", ") ∧
      index row 3 = Except.ok (stringsJoin regionList ", ") ∧
      providerList.Nodup ∧ regionList.Nodup ∧
      (∀ v, v ∈ providerList ↔ ∃ d ∈ function.Deployments, d.Id = some v) ∧
      (∀ v, v ∈ regionList ↔ ∃ d ∈ function.Deployments, d.Location.Country = some v) ∧
      providerList.Pairwise
        (fun a b => (providerIds function).indexOf a < (providerIds function).indexOf b) ∧
      regionList.Pairwise
        (fun a b => (countryCodes function).indexOf a < (countryCodes function).indexOf b) := by
  refine ⟨_, _, _, scanDeployments_of_wellFormed function h, rowOf_of_wellFormed function h,
    rfl, rfl, nodup_foldl_appendIfAbsent _ _ List.nodup_nil,
    nodup_foldl_appendIfAbsent _ _ List.nodup_nil, ?_, ?_,
    pairwise_foldl_appendIfAbsent _, pairwise_foldl_appendIfAbsent _⟩
  · intro v
    rw [mem_foldl_appendIfAbsent, ← mem_providerIds]
    simp
  · intro v
    rw [mem_foldl_appendIfAbsent, ← mem_countryCodes]
    simp

/-- Witness of C2: deployments (aws, US), (aws, DE) give providers "aws" and regions
"US, DE". -/
theorem rowOf_providers_regions_witness :
    WellFormed awsTwice ∧
    scanDeployments awsTwice.Deployments = Except.ok (["US", "DE"], ["aws"]) ∧
    rowOf awsTwice = Except.ok ["checkout-api", "http", "aws", "US, DE", "1", "128"] ∧
    ∃ regionList providerList row,
      scanDeployments awsTwice.Deployments = Except.ok (regionList, providerList) ∧
      rowOf awsTwice = Except.ok row ∧
      index row 2 = Except.ok (stringsJoin providerList ", ") ∧
      index row 3 = Except.ok (stringsJoin regionList ", ") ∧
      providerList.Nodup ∧ regionList.Nodup ∧
      (∀ v, v ∈ providerList ↔ ∃ d ∈ awsTwice.Deployments, d.Id = some v) ∧
      (∀ v, v ∈ regionList ↔ ∃ d ∈ awsTwice.Deployments, d.Location.Country = some v) ∧
      providerList.Pairwise
        (fun a b => (providerIds awsTwice).indexOf a < (providerIds awsTwice).indexOf b) ∧
      regionList.Pairwise
        (fun a b => (countryCodes awsTwice).indexOf a < (countryCodes awsTwice).indexOf b) :=
  ⟨awsTwice_wellFormed, rfl, rfl, rowOf_providers_regions awsTwice awsTwice_wellFormed⟩

/-- C7: a function with no deployments gets a row, without a panic, whose providers and
regions fields are both the empty string; inside any sequence of well-formed functions
the loop emits that row at the function's position. -/
theorem rowOf_no_deployments (function : RawFunction) (h : function.Deployments = []) :
    rowOf function = Except.ok [function.Name, function.Type_, "", "",
      fmtSprint function.Size.Cpu, fmtSprint function.Size.Memory] ∧
    ∀ before after : List RawFunction, (∀ f ∈ before ++ after, WellFormed f) →
      ∃ rows₁ rows₂, buildRows before = Except.ok rows₁ ∧ buildRows after = Except.ok rows₂ ∧
        buildRows (before ++ function :: after) = Except.ok
          (rows₁ ++ [function.Name, function.Type_, "", "",
            fmtSprint function.Size.Cpu, fmtSprint function.Size.Memory] :: rows₂) := by
  have hwf : WellFormed function := by
    intro d hd
    rw [h] at hd
    cases hd
  have hrow : aggregatedRow function = [function.Name, function.Type_, "", "",
      fmtSprint function.Size.Cpu, fmtSprint function.Size.Memory] := by
    simp [aggregatedRow, providerIds, countryCodes, h, stringsJoin, String.intercalate]
  refine ⟨by rw [rowOf_of_wellFormed function hwf, hrow], ?_⟩
  intro before after hall
  refine ⟨before.map aggregatedRow, after.map aggregatedRow,
    buildRows_of_wellFormed before (fun f hf => hall f (List.mem_append_left after hf)),
    buildRows_of_wellFormed after (fun f hf => hall f (List.mem_append_right before hf)), ?_⟩
  rw [buildRows_of_wellFormed, List.map_append, List.map_cons, hrow]
  intro f hf
  rcases List.mem_append.1 hf with hb | ha
  · exact hall f (List.mem_append_left after hb)
  · rcases List.mem_cons.1 ha with rfl | ha
    · exact hwf
    · exact hall f (List.mem_append_right before ha)

/-- Witness of C7: the function without deployments, alone and after `awsTwice`. -/
theorem rowOf_no_deployments_witness :
    noDeployments.Deployments = [] ∧
    rowOf noDeployments = Except.ok ["nightly", "job", "", "", "2", "256"] ∧
    buildRows [awsTwice, noDeployments] = Except.ok
      [["checkout-api", "http", "aws", "US, DE", "1", "128"],
       ["nightly", "job", "", "", "2", "256"]] :=
  ⟨rfl, (rowOf_no_deployments noDeployments rfl).1, rfl⟩

/-! ## Credential parsing -/

theorem splitLoop_of_not_mem (sep : Char) (s piece : List Char) (h : sep ∉ s) :
    splitLoop sep piece s = [piece ++ s] := by
  induction s generalizing piece with
  | nil => simp [splitLoop]
  | cons c rest ih =>
    have hc : c ≠ sep := fun e => h (e ▸ List.mem_cons_self c rest)
    have hrest : sep ∉ rest := fun e => h (List.mem_cons_of_mem c e)
    simp [splitLoop, hc, ih _ hrest]

theorem splitLoop_of_count_one (sep : Char) (s piece : List Char) (h : s.count sep = 1) :
    ∃ a b, s = a ++ sep :: b ∧ sep ∉ a ∧ sep ∉ b ∧ splitLoop sep piece s = [piece ++ a, b] := by
  induction s generalizing piece with
  | nil => simp at h
  | cons c rest ih =>
    by_cases hc : c = sep
    · subst hc
      have hrest : c ∉ rest := by
        rw [List.count_cons_self] at h
        exact List.count_eq_zero.1 (by omega)
      exact ⟨[], rest, rfl, List.not_mem_nil c, hrest,
        by simp [splitLoop, splitLoop_of_not_mem c rest [] hrest]⟩
    · have hcount : rest.count sep = 1 := by
        rwa [List.count_cons_of_ne (Ne.symm hc)] at h
      obtain ⟨a, b, hab, ha, hb, hsplit⟩ := ih (piece ++ [c]) hcount
      refine ⟨c :: a, b, by simp [hab], ?_, hb, by simp [splitLoop, hc, hsplit]⟩
      intro hmem
      rcases List.mem_cons.1 hmem with e | e
      · exact hc e.symm
      · exact ha e

theorem parseCredential_of_count_ne_one (token : String) (h : token.data.count '@' ≠ 1) :
    parseCredential token = Except.ok (Except.error invalidTokenError) := by
  have hcond : (!stringsContains token '@' || decide (stringsCount token '@' > 1)) = true := by
    by_cases h0 : token.data.count '@' = 0
    · have : '@' ∉ token.data := List.count_eq_zero.1 h0
      simp [stringsContains, this]
    · have : token.data.count '@' > 1 := by omega
      simp [stringsCount, this]
  simp only [parseCredential, hcond, if_true]

theorem parseCredential_of_count_one (token : String) (h : token.data.count '@' = 1) :
    ∃ clientId clientSecret : String,
      parseCredential token = Except.ok (Except.ok (clientId, clientSecret)) ∧
      token = clientId ++ "@" ++ clientSecret ∧
      '@' ∉ clientId.data ∧ '@' ∉ clientSecret.data := by
  obtain ⟨a, b, hab, ha, hb, hsplit⟩ := splitLoop_of_count_one '@' token.data [] h
  have hmem : '@' ∈ token.data := List.count_pos_iff.1 (by omega)
  have hcond : (!stringsContains token '@' || decide (stringsCount token '@' > 1)) = false := by
    simp [stringsContains, stringsCount, hmem, h]
  refine ⟨String.mk a, String.mk b, ?_, ?_, ha, hb⟩
  · simp [parseCredential, hcond, stringsSplit, hsplit, index]
  · apply String.ext
    simp [hab]

/-- C3: credential parsing succeeds exactly when the token holds exactly one '@'; on
success the token is clientId, '@', clientSecret with no '@' in either part, and
`_getAccessToken` hands exactly these to the token exchange; on failure the format error
is returned. "abc@def" splits into "abc" and "def"; "abcdef" and "a@b@c" fail. -/
theorem parseCredential_iff_one_separator (token : String) :
    ((∃ clientId clientSecret,
        parseCredential token = Except.ok (Except.ok (clientId, clientSecret))) ↔
      token.data.count '@' = 1) ∧
    (∀ clientId clientSecret,
      parseCredential token = Except.ok (Except.ok (clientId, clientSecret)) →
      token = clientId ++ "@" ++ clientSecret ∧
      '@' ∉ clientId.data ∧ '@' ∉ clientSecret.data ∧
      ∀ (tokenRequest : Config → Except String String) (host : String),
        _getAccessToken tokenRequest host token =
          match tokenRequest { ClientID := clientId, ClientSecret := clientSecret,
                               TokenURL := host ++ "/oauth2/token" } with
          | Except.error err => Except.ok ("", some err)
          | Except.ok oauthToken => Except.ok (oauthToken, none)) ∧
    (token.data.count '@' ≠ 1 →
      parseCredential token = Except.ok (Except.error "the qernal token is invalid") ∧
      ∀ (tokenRequest : Config → Except String String) (host : String),
        _getAccessToken tokenRequest host token =
          Except.ok ("", some "the qernal token is invalid")) ∧
    parseCredential "abc@def" = Except.ok (Except.ok ("abc", "def")) ∧
    parseCredential "abcdef" = Except.ok (Except.error "the qernal token is invalid") ∧
    parseCredential "a@b@c" = Except.ok (Except.error "the qernal token is invalid") := by
  refine ⟨⟨?_, ?_⟩, ?_, ?_, rfl, rfl, rfl⟩
  · rintro ⟨clientId, clientSecret, hok⟩
    by_contra hne
    rw [parseCredential_of_count_ne_one token hne] at hok
    cases hok
  · intro h
    obtain ⟨clientId, clientSecret, hok, _⟩ := parseCredential_of_count_one token h
    exact ⟨clientId, clientSecret, hok⟩
  · intro clientId clientSecret hok
    have hone : token.data.count '@' = 1 := by
      by_contra hne
      rw [parseCredential_of_count_ne_one token hne] at hok
      cases hok
    obtain ⟨id, secret, hok2, htoken, hid, hsecret⟩ := parseCredential_of_count_one token hone
    rw [hok] at hok2
    injection hok2 with hok2
    injection hok2 with hok2
    injection hok2 with h1 h2
    subst h1
    subst h2
    refine ⟨htoken, hid, hsecret, ?_⟩
    intro tokenRequest host
    simp only [_getAccessToken, hok]
  · intro hne
    have hfail := parseCredential_of_count_ne_one token hne
    refine ⟨hfail, ?_⟩
    intro tokenRequest host
    simp only [_getAccessToken, hfail]
    rfl

/-! ## Key handling -/

theorem table_update_esc (t : table.Model) :
    t.Update (tea.Msg.KeyMsg "esc") = (t, none) := by
  unfold table.Model.Update
  split
  · rfl
  · simp

theorem main_focused (os : Environ) (net : Network) (built : model)
    (h : (main os net).2 = Except.ok built) : built.table.Focused = true := by
  unfold main at h
  split at h
  · cases h
  · dsimp only at h
    split at h
    · cases h
    · split at h
      · cases h
      · injection h with h
        subst h
        rfl

/-- C5: the table is built focused, and `esc` flips the focus flag, keeps rows, cursor and
height, and returns no command; a second `esc` gives back the starting state. -/
theorem esc_toggles_focus (m : model) :
    (∀ rows : List Row, (table.New rows true 7).Focused = true) ∧
    (∀ (os : Environ) (net : Network) (built : model),
      (main os net).2 = Except.ok built → built.table.Focused = true) ∧
    model.Update m (tea.Msg.KeyMsg "esc") =
      Except.ok ({ table := { m.table with focus := !m.table.focus } }, none) ∧
    model.Update { table := { m.table with focus := !m.table.focus } } (tea.Msg.KeyMsg "esc") =
      Except.ok (m, none) := by
  refine ⟨fun _ => rfl, main_focused, ?_, ?_⟩
  · obtain ⟨⟨rows, cursor, focus, height⟩⟩ := m
    cases focus <;>
      simp [model.Update, delegate, table_update_esc, table.Model.Focused, table.Model.Blur,
        table.Model.Focus]
  · obtain ⟨⟨rows, cursor, focus, height⟩⟩ := m
    cases focus <;>
      simp [model.Update, delegate, table_update_esc, table.Model.Focused, table.Model.Blur,
        table.Model.Focus]

/-- C6: on `q` and on `ctrl+c`, whatever the focus, rows and cursor, `model.Update` returns
the quit command and the model unchanged. -/
theorem quit_keys (m : model) :
    model.Update m (tea.Msg.KeyMsg "q") = Except.ok (m, some tea.Cmd.Quit) ∧
    model.Update m (tea.Msg.KeyMsg "ctrl+c") = Except.ok (m, some tea.Cmd.Quit) := by
  constructor <;> simp [model.Update]

theorem update_enter_of_selected (m : model) (field : String)
    (h : index m.table.SelectedRow 1 = Except.ok field) :
    model.Update m (tea.Msg.KeyMsg "enter") =
      Except.ok (m, some (tea.Cmd.Batch [tea.Cmd.Printf (selectionText field)])) := by
  simp [model.Update, h]

theorem index_of_lt {α : Type} (s : List α) (i : Nat) (h : i < s.length) :
    index s i = Except.ok (s.get ⟨i, h⟩) := by
  simp [index, List.getElem?_eq_getElem h]

/-- C8, counterexample: on the blurred one-row table `enter` still returns the print
command, not the absence of a command. -/
theorem enter_unfocused_emits :
    blurredCheckout.table.Focused = false ∧
    model.Update blurredCheckout (tea.Msg.KeyMsg "enter") =
      Except.ok (blurredCheckout, some (tea.Cmd.Batch [tea.Cmd.Printf "Let's go to http!"])) ∧
    ¬ ∃ m, model.Update blurredCheckout (tea.Msg.KeyMsg "enter") = Except.ok (m, none) := by
  have h : model.Update blurredCheckout (tea.Msg.KeyMsg "enter") =
      Except.ok (blurredCheckout, some (tea.Cmd.Batch [tea.Cmd.Printf "Let's go to http!"])) :=
    rfl
  refine ⟨rfl, h, ?_⟩
  rintro ⟨m, hm⟩
  rw [h] at hm
  injection hm with hm
  injection hm with _ hcmd
  cases hcmd

/-- C8, amended: `enter` is not gated on the focus flag. On an unfocused table with a
highlighted row of at least two fields `model.Update` returns the model unchanged (focus
flag, cursor and rows) together with a print command, the same one it returns when the
same table is focused. -/
theorem enter_not_gated_by_focus (m : model) (_hfocus : m.table.Focused = false)
    (hrow : 2 ≤ m.table.SelectedRow.length) :
    ∃ text,
      model.Update m (tea.Msg.KeyMsg "enter") =
        Except.ok (m, some (tea.Cmd.Batch [tea.Cmd.Printf text])) ∧
      model.Update { table := m.table.Focus } (tea.Msg.KeyMsg "enter") =
        Except.ok ({ table := m.table.Focus }, some (tea.Cmd.Batch [tea.Cmd.Printf text])) := by
  have hlt : 1 < m.table.SelectedRow.length := hrow
  exact ⟨selectionText (m.table.SelectedRow.get ⟨1, hlt⟩),
    update_enter_of_selected m _ (index_of_lt _ 1 hlt),
    update_enter_of_selected { table := m.table.Focus } _ (index_of_lt _ 1 hlt)⟩

/-- Witness of the amended C8 on the blurred one-row table. -/
theorem enter_not_gated_by_focus_witness :
    blurredCheckout.table.Focused = false ∧ 2 ≤ blurredCheckout.table.SelectedRow.length ∧
    ∃ text,
      model.Update blurredCheckout (tea.Msg.KeyMsg "enter") =
        Except.ok (blurredCheckout, some (tea.Cmd.Batch [tea.Cmd.Printf text])) ∧
      model.Update { table := blurredCheckout.table.Focus } (tea.Msg.KeyMsg "enter") =
        Except.ok ({ table := blurredCheckout.table.Focus },
          some (tea.Cmd.Batch [tea.Cmd.Printf text])) :=
  ⟨rfl, by decide, enter_not_gated_by_focus blurredCheckout rfl (by decide)⟩

/-- C4, the code at the failing input: the rows are built from the function named
"checkout-api" of type "http"; on `enter` the focused table prints field 1 of the
highlighted row, the type, where the claim expects the name. -/
theorem enter_prints_type_field :
    buildRows [awsTwice] = Except.ok [["checkout-api", "http", "aws", "US, DE", "1", "128"]] ∧
    awsTwice.Name = "checkout-api" ∧
    model.Update
        { table := table.New [["checkout-api", "http", "aws", "US, DE", "1", "128"]] true 7 }
        (tea.Msg.KeyMsg "enter") =
      Except.ok
        ({ table := table.New [["checkout-api", "http", "aws", "US, DE", "1", "128"]] true 7 },
         some (tea.Cmd.Batch [tea.Cmd.Printf "Let's go to http!"])) ∧
    "Let's go to http!" ≠ "Let's go to checkout-api!" :=
  ⟨rfl, rfl, rfl, by decide⟩

theorem selectedRow_of_no_rows (t : table.Model) (h : t.rows = []) : t.SelectedRow = [] := by
  unfold table.Model.SelectedRow
  split
  · rfl
  · simp [h]

/-- C10, the code at the failing input: on a table without rows `enter` panics with an
index out of range, focused or not; every other message, and `enter` on a highlighted row
of at least two fields, returns a model and an optional command. -/
theorem update_enter_no_rows_panics :
    model.Update { table := table.New [] true 7 } (tea.Msg.KeyMsg "enter") =
      Except.error Fault.indexOutOfRange ∧
    (∀ m : model, m.table.rows = [] →
      model.Update m (tea.Msg.KeyMsg "enter") = Except.error Fault.indexOutOfRange) ∧
    (∀ (m : model) (msg : tea.Msg), msg ≠ tea.Msg.KeyMsg "enter" →
      ∃ r, model.Update m msg = Except.ok r) ∧
    (∀ m : model, 2 ≤ m.table.SelectedRow.length →
      ∃ r, model.Update m (tea.Msg.KeyMsg "enter") = Except.ok r) := by
  refine ⟨rfl, ?_, ?_, ?_⟩
  · intro m h
    simp [model.Update, selectedRow_of_no_rows m.table h, index]
  · intro m msg hmsg
    cases msg with
    | other => exact ⟨_, rfl⟩
    | KeyMsg key =>
      have hkey : key ≠ "enter" := fun e => hmsg (by rw [e])
      unfold model.Update
      simp only [hkey, if_false]
      split_ifs <;> exact ⟨_, rfl⟩
  · intro m h
    exact ⟨_, update_enter_of_selected m _ (index_of_lt _ 1 h)⟩

/-- C9, the code at the failing input: with the token "abcdef" `_getAccessToken` returns the
format error, the package variable keeps the empty token, and `main` still builds the
client (header "Bearer ") and issues the function-list request; when that request
returns an empty list the terminal program is started. -/
theorem invalid_token_not_fatal (net : Network) :
    _getAccessToken net.tokenRequest "https://hydra.qernal.com" "abcdef" =
      Except.ok ("", some "the qernal token is invalid") ∧
    accessToken malformedEnv net = Except.ok "" ∧
    (∃ rest, (main malformedEnv net).1 =
      Event.clientBuilt { URL := "https://chaos.qernal.com/v1", Authorization := "Bearer " } ::
      Event.functionsListRequested
        { URL := "https://chaos.qernal.com/v1", Authorization := "Bearer " }
        "\x7bproject-id\x7d" :: rest) ∧
    (net.functionsList { URL := "https://chaos.qernal.com/v1", Authorization := "Bearer " }
        "\x7bproject-id\x7d" = some [] →
      (main malformedEnv net).2 = Except.ok { table := table.New [] true 7 } ∧
      Event.programStarted { table := table.New [] true 7 } ∈ (main malformedEnv net).1) := by
  have hparse : parseCredential "abcdef" = Except.ok (Except.error invalidTokenError) := rfl
  have hget : ∀ host, _getAccessToken net.tokenRequest host "abcdef" =
      Except.ok ("", some "the qernal token is invalid") := by
    intro host
    simp only [_getAccessToken, hparse]
    rfl
  have htoken : accessToken malformedEnv net = Except.ok "" := by
    simp only [accessToken, malformedEnv, hget]
  have hclient : qernalClient (getEnv malformedEnv.QERNAL_HOST_CHAOS "https://chaos.qernal.com") ""
      = { URL := "https://chaos.qernal.com/v1", Authorization := "Bearer " } := rfl
  refine ⟨hget _, htoken, ?_, ?_⟩
  · simp only [main, htoken, hclient]
    cases net.functionsList { URL := "https://chaos.qernal.com/v1", Authorization := "Bearer " }
        "\x7bproject-id\x7d" with
    | none => exact ⟨[], rfl⟩
    | some data =>
      simp only [deref]
      cases buildRows data with
      | error e => exact ⟨[], rfl⟩
      | ok rows => exact ⟨[_], rfl⟩
  · intro hlist
    simp only [main, htoken, hclient, hlist, deref]
    exact ⟨rfl, by simp [buildRows, pure, Except.pure]⟩

end Qernal
